/-
  Verification of the roleplay-chat backend core.

  Shallow embedding of:
  * the prompt budget fitter `fitMessagesToBudget` and its helper
    `truncateString` from `functions/api/chat.ts`;
  * the character-sheet age sanitization (`sanitizeCharacter` / `clamp`)
    from `functions/api/chat.ts`;
  * the async video job poller `retrieveUntilDone` and its status
    classifiers from `functions/api/video.ts`.

  JavaScript strings are modelled as lists of characters (`Str`); string
  `.length`, `.slice`, `.toUpperCase`, `.includes`, `.startsWith` become the
  corresponding list operations.  Character budgets are integers (`ℤ`),
  mirroring the arbitrary `maxChars` argument.
-/
import Mathlib

/-- JavaScript strings, modelled as lists of UTF-16 units. -/
abbrev Str := List Char

namespace Chat

/-- The `role` field of `Msg` in `chat.ts`: `"system" | "user" | "assistant"`. -/
inductive Role
  | system
  | user
  | assistant
deriving DecidableEq

/-- `type Msg = { role: ...; content: string }` from `chat.ts`. -/
structure Msg where
  role : Role
  content : Str
deriving DecidableEq

/--
`truncateString` from `chat.ts`:
```
function truncateString(s, maxLen) {
  const str = String(s || "");
  if (maxLen <= 0) return "";
  if (str.length <= maxLen) return str;
  return str.slice(0, Math.max(0, maxLen - 1)) + "…";
}
```
`Int.toNat` is exactly `Math.max(0, ·)` for the slice bound.
-/
def truncateString (s : Str) (maxLen : ℤ) : Str :=
  if maxLen ≤ 0 then []
  else if (s.length : ℤ) ≤ maxLen then s
  else s.take (maxLen - 1).toNat ++ ['…']

/--
The local `sizeOf` helper inside `fitMessagesToBudget`:
`arr.reduce((s, m) => s + String(m.content || "").length, 0)`.
-/
def sizeOfMsgs (arr : List Msg) : ℕ :=
  arr.foldl (fun s m => s + m.content.length) 0

/--
One tentative insertion step of the history loop in `fitMessagesToBudget`:
`result.slice(0, insertIndex).concat([entry], result.slice(insertIndex))`
with `insertIndex = safeSys ? 1 : 0`.
-/
def insertAt (hasSys : Bool) (entry : Msg) (result : List Msg) : List Msg :=
  let i : ℕ := if hasSys then 1 else 0
  result.take i ++ entry :: result.drop i

/--
The `for (let i = middle.length - 1; i >= 0; i--)` loop of
`fitMessagesToBudget`, with the middle messages already reversed
(newest first) in `pend`.  A candidate is accepted only when its total
size stays within `maxChars`; a rejected message is skipped and the scan
continues with the older messages.
-/
def fitLoop (hasSys : Bool) (maxChars : ℤ) : List Msg → List Msg → List Msg
  | [], result => result
  | m :: pend, result =>
    let candidate := insertAt hasSys m result
    if (sizeOfMsgs candidate : ℤ) ≤ maxChars then fitLoop hasSys maxChars pend candidate
    else fitLoop hasSys maxChars pend result

/--
`fitMessagesToBudget(messages, maxChars)` from `chat.ts`.

* `last := messages[messages.length - 1]` is `rest.getLastD m0`;
* `sys := system?.role === "system" ? system : null` becomes the outer
  `if` on `m0.role`;
* `middle := messages.slice(sys ? 1 : 0, -1)` is `rest.dropLast`
  (resp. `(m0 :: rest).dropLast` when there is no system anchor);
* `safeSys`/`safeLast`/`entry` rebuild `{role, String(content || "")}`,
  which on our `Str` model is the identity, so `safeSys = m0` in the
  system branch;
* when `system + last` already exceeds the budget, the system content is
  kept at full length and `last` is truncated to
  `Math.max(0, maxChars - safeSys.content.length)` characters;
* otherwise the middle messages are tried newest-first by `fitLoop`.
-/
def fitMessagesToBudget : List Msg → ℤ → List Msg
  | [], _ => []
  | m0 :: rest, maxChars =>
    let last := rest.getLastD m0
    let safeLast : Msg := ⟨last.role, last.content⟩
    if m0.role = Role.system then
      if (sizeOfMsgs [m0, safeLast] : ℤ) > maxChars then
        [m0, ⟨last.role, truncateString last.content (max 0 (maxChars - (m0.content.length : ℤ)))⟩]
      else
        fitLoop true maxChars rest.dropLast.reverse [m0, safeLast]
    else
      if (sizeOfMsgs [safeLast] : ℤ) > maxChars then
        [⟨last.role, truncateString last.content maxChars⟩]
      else
        fitLoop false maxChars (m0 :: rest).dropLast.reverse [safeLast]

/-- `clamp(n, min, max)` from `chat.ts`: `Math.max(min, Math.min(max, n))`. -/
def clamp (n mn mx : ℚ) : ℚ := max mn (min mx n)

/--
The `age` field computation of `sanitizeCharacter` in `chat.ts`:
```
const ageNum = Number(ch.age);
const age = Number.isFinite(ageNum) ? clamp(Math.floor(ageNum), 18, 200) : 18;
```
A finite `Number(ch.age)` is modelled as `some q` (every finite IEEE
double is a rational); `NaN`/`±Infinity`/non-numeric input is `none`.
-/
def sanitizeCharacterAge : Option ℚ → ℚ
  | some q => clamp (⌊q⌋ : ℚ) 18 200
  | none => 18

end Chat

namespace Video

/-- `VeniceRetrieveJson` from `video.ts`:
`{ status?: string; video_url?: string; media_url?: string }`. -/
structure RetrieveJson where
  status : Option Str
  video_url : Option Str
  media_url : Option Str
deriving DecidableEq

/-- JS `String.prototype.toUpperCase` (ASCII fragment). -/
def toUpperStr (s : Str) : Str := s.map Char.toUpper

/-- JS `String.prototype.toLowerCase` (ASCII fragment). -/
def toLowerStr (s : Str) : Str := s.map Char.toLower

/-- JS `String(s || "")` applied to an optional string field. -/
def jsStr (s : Option Str) : Str := s.getD []

/--
`isProcessingStatus` from `video.ts`:
`String(s || "").toUpperCase()` equals one of `PROCESSING`, `QUEUED`,
`PENDING`, `STARTING`, `RUNNING`, `IN_PROGRESS`.
-/
def isProcessingStatus (s : Option Str) : Bool :=
  let v := toUpperStr (jsStr s)
  v == ("PROCESSING".toList) || v == ("QUEUED".toList) || v == ("PENDING".toList) ||
    v == ("STARTING".toList) || v == ("RUNNING".toList) || v == ("IN_PROGRESS".toList)

/--
`isTerminalErrorStatus` from `video.ts`:
`String(s || "").toUpperCase()` equals one of `FAILED`, `ERROR`,
`CANCELED`, `CANCELLED`.
-/
def isTerminalErrorStatus (s : Option Str) : Bool :=
  let v := toUpperStr (jsStr s)
  v == ("FAILED".toList) || v == ("ERROR".toList) || v == ("CANCELED".toList) ||
    v == ("CANCELLED".toList)

/-- JS `hay.includes(needle)`. -/
def includesStr (hay needle : Str) : Bool := hay.tails.any (fun t => needle.isPrefixOf t)

/-- JS `hay.startsWith(needle)`. -/
def startsWithStr (hay needle : Str) : Bool := needle.isPrefixOf hay

/-- JS `a || b` on two optional strings (`undefined` and `""` are falsy). -/
def jsOrOpt (a b : Option Str) : Option Str :=
  match a with
  | some s => if s.isEmpty then b else some s
  | none => b

/-- `status || "DONE"` from the URL-success response. -/
def statusOrDone (s : Option Str) : Str :=
  match s with
  | some v => if v.isEmpty then ("DONE".toList) else v
  | none => ("DONE".toList)

/-- JS `ct.split(";")[0]`. -/
def splitSemiHead (ct : Str) : Str := ct.takeWhile (fun c => c != ';')

/-- The literal content-type marker `"application/json"`. -/
def jsonContentType : Str := "application/json".toList

/-- The literal URL prefix `"http"`. -/
def httpMarker : Str := "http".toList

/-- The literal MIME prefix `"video/"`. -/
def videoMarker : Str := "video/".toList

/-- The literal default MIME `"video/mp4"`. -/
def mp4Mime : Str := "video/mp4".toList

/--
What one iteration of the polling loop observes from
`fetch("https://api.venice.ai/api/v1/video/retrieve", ...)`:
the fetch throws, or resolves with `!r.ok` (non-2xx, body text read for
diagnostics), or resolves OK with a content type and — when the JSON
branch is taken — the value `await r.json().catch(() => null)` would
produce (`none` models `null`).
-/
inductive FetchResult
  | threw (details : Str)
  | httpError (status : ℕ) (bodyText : Str)
  | ok (contentType : Str) (jsonBody : Option RetrieveJson)
deriving DecidableEq

/-- The possible returns of `retrieveUntilDone`, one constructor per
`return` site, carrying the fields the JSON/stream body carries. -/
inductive Outcome
  | fetchThrew (details : Str) (queueId : Str)
  | retrieveFailed (httpStatus : ℕ) (details : Str) (queueId : Str)
  | videoUrl (url : Str) (queueId : Str) (status : Str)
  | terminalFailure (queueId : Str) (details : Option RetrieveJson)
  | unexpectedJson (queueId : Str) (details : Option RetrieveJson)
  | videoBytes (mime : Str)
  | stillProcessing (queueId : Str)
deriving DecidableEq

/-- The `opts` of `retrieveUntilDone` that matter to the loop:
`{ queueId, maxWaitMs, pollEveryMs }` (the route always passes
`maxWaitMs: 25_000, pollEveryMs: 2_000`). -/
structure PollCfg where
  queueId : Str
  maxWaitMs : ℕ
  pollEveryMs : ℕ

/-- The environment of one poll run: what attempt `k` returns, and how
many milliseconds of wall clock attempt `k` consumes before its
response is classified. -/
structure Trace where
  fetch : ℕ → FetchResult
  fetchDur : ℕ → ℕ

/-- Instrumented return value: the outcome, how many retrieval calls
were issued, and the elapsed milliseconds (since `started`) at the
moment of return. -/
structure PollResult where
  outcome : Outcome
  attempts : ℕ
  finishedAt : ℕ
deriving DecidableEq

/--
The `while (Date.now() - started < maxWaitMs)` loop of
`retrieveUntilDone` from `video.ts`.  `elapsed` is `Date.now() - started`
at the loop check; `k` counts retrieval attempts already issued.
`await sleep(pollEveryMs)` advances the clock by `pollEveryMs`; the fetch
of attempt `k` advances it by `tr.fetchDur k`.  `fuel` bounds the number
of iterations so the definition is total; `none` models a run that would
iterate beyond the given fuel (impossible from the route's
configuration, see `retrieveUntilDone`).
-/
def retrieveLoop (cfg : PollCfg) (tr : Trace) : ℕ → ℕ → ℕ → Option PollResult
  | 0, _, _ => none
  | fuel + 1, elapsed, k =>
    if elapsed < cfg.maxWaitMs then
      match tr.fetch k with
      | .threw d =>
        some ⟨.fetchThrew d cfg.queueId, k + 1, elapsed + tr.fetchDur k⟩
      | .httpError st t =>
        some ⟨.retrieveFailed st t cfg.queueId, k + 1, elapsed + tr.fetchDur k⟩
      | .ok ct j =>
        let ctl := toLowerStr ct
        if includesStr ctl jsonContentType then
          let status := j.bind (fun x => x.status)
          if isProcessingStatus status then
            retrieveLoop cfg tr fuel (elapsed + tr.fetchDur k + cfg.pollEveryMs) (k + 1)
          else
            let maybeUrl := jsOrOpt (j.bind (fun x => x.video_url)) (j.bind (fun x => x.media_url))
            match maybeUrl with
            | some u =>
              if startsWithStr u httpMarker then
                some ⟨.videoUrl u cfg.queueId (statusOrDone status), k + 1,
                  elapsed + tr.fetchDur k⟩
              else if isTerminalErrorStatus status then
                some ⟨.terminalFailure cfg.queueId j, k + 1, elapsed + tr.fetchDur k⟩
              else
                some ⟨.unexpectedJson cfg.queueId j, k + 1, elapsed + tr.fetchDur k⟩
            | none =>
              if isTerminalErrorStatus status then
                some ⟨.terminalFailure cfg.queueId j, k + 1, elapsed + tr.fetchDur k⟩
              else
                some ⟨.unexpectedJson cfg.queueId j, k + 1, elapsed + tr.fetchDur k⟩
        else
          let mime0 := if startsWithStr ctl videoMarker then splitSemiHead ctl
            else mp4Mime
          some ⟨.videoBytes (if mime0.isEmpty then mp4Mime else mime0),
            k + 1, elapsed + tr.fetchDur k⟩
    else
      some ⟨.stillProcessing cfg.queueId, k, elapsed⟩

/-- `retrieveUntilDone`: run the loop from a fresh `started` clock.
With the route's `pollEveryMs = 2000 > 0` the loop can iterate at most
`maxWaitMs` times, so `maxWaitMs + 1` units of fuel are never exhausted. -/
def retrieveUntilDone (cfg : PollCfg) (tr : Trace) : Option PollResult :=
  retrieveLoop cfg tr (cfg.maxWaitMs + 1) 0 0

/-- The route's poll configuration: `maxWaitMs: 25_000, pollEveryMs: 2_000`
for queue id `"abc123"`. -/
def sampleCfg : PollCfg := ⟨("abc123".toList), 25000, 2000⟩

/-- A run whose first retrieval fetch throws. -/
def throwTrace : Trace := ⟨fun _ => .threw ('x' :: []), fun _ => 0⟩

/-- A JSON body `{ status: "failed" }`. -/
def failedJson : RetrieveJson := ⟨some ("failed".toList), none, none⟩

/-- A run whose every retrieval resolves with `{ status: "failed" }`. -/
def failedTrace : Trace :=
  ⟨fun _ => .ok jsonContentType (some failedJson), fun _ => 0⟩

/-- A JSON body `{ status: "failed", video_url: "http://x" }`. -/
def failedUrlJson : RetrieveJson := ⟨some ("failed".toList), some ("http://x".toList), none⟩

/-- A run whose every retrieval resolves with a failed status that also
carries a usable `video_url`. -/
def failedUrlTrace : Trace :=
  ⟨fun _ => .ok jsonContentType (some failedUrlJson), fun _ => 0⟩

/-- A JSON body `{ status: "in-progress" }` (hyphen, as the spec spells it). -/
def hyphenJson : RetrieveJson := ⟨some ("in-progress".toList), none, none⟩

/-- A run whose every retrieval resolves with `{ status: "in-progress" }`. -/
def hyphenTrace : Trace :=
  ⟨fun _ => .ok jsonContentType (some hyphenJson), fun _ => 0⟩

/-- A JSON body `{ status: "processing" }`. -/
def processingJson : RetrieveJson := ⟨some ("processing".toList), none, none⟩

/-- A run whose every retrieval resolves with `{ status: "processing" }`. -/
def processingTrace : Trace :=
  ⟨fun _ => .ok jsonContentType (some processingJson), fun _ => 0⟩

end Video

namespace Chat

/-- Structure eta for `Msg`, definitional in Lean 4. -/
@[simp] theorem Msg.eta (m : Msg) : (⟨m.role, m.content⟩ : Msg) = m := rfl

theorem truncateString_nonpos (s : Str) (m : ℤ) (h : m ≤ 0) :
    truncateString s m = [] := by
  simp [truncateString, h]

theorem truncateString_of_le (s : Str) (m : ℤ) (h : (s.length : ℤ) ≤ m) :
    truncateString s m = s := by
  by_cases h0 : m ≤ 0
  · have hlen : s.length = 0 := by omega
    have : s = [] := List.length_eq_zero.mp hlen
    simp [truncateString, h0, this]
  · simp [truncateString, h0, h]

theorem truncateString_self (s : Str) : truncateString s (s.length : ℤ) = s :=
  truncateString_of_le s _ le_rfl

theorem truncateString_nil (m : ℤ) : truncateString [] m = [] := by
  by_cases h0 : m ≤ 0
  · exact truncateString_nonpos _ _ h0
  · exact truncateString_of_le _ _ (by simp; omega)

theorem truncateString_length_le (s : Str) (m : ℤ) :
    ((truncateString s m).length : ℤ) ≤ max m 0 := by
  unfold truncateString
  by_cases h0 : m ≤ 0
  · simp [h0]
  · by_cases h1 : (s.length : ℤ) ≤ m
    · simp only [h0, h1, if_true, if_false, if_neg, if_pos, not_false_iff]
      omega
    · simp only [h0, h1, if_false, if_neg]
      have hm1 : (0 : ℤ) ≤ m - 1 := by omega
      have htake : (s.take (m - 1).toNat).length = (m - 1).toNat := by
        rw [List.length_take]
        omega
      simp [htake]
      omega

theorem sizeOfMsgs_foldl (l : List Msg) (s : ℕ) :
    l.foldl (fun a m => a + m.content.length) s = s + sizeOfMsgs l := by
  induction l generalizing s with
  | nil => simp [sizeOfMsgs]
  | cons m t ih =>
    simp only [sizeOfMsgs, List.foldl_cons] at *
    rw [ih (s + m.content.length), ih (0 + m.content.length)]
    omega

@[simp] theorem sizeOfMsgs_nil : sizeOfMsgs [] = 0 := rfl

@[simp] theorem sizeOfMsgs_cons (m : Msg) (l : List Msg) :
    sizeOfMsgs (m :: l) = m.content.length + sizeOfMsgs l := by
  have h : sizeOfMsgs (m :: l) =
      l.foldl (fun a x => a + x.content.length) (0 + m.content.length) := rfl
  rw [h, sizeOfMsgs_foldl]
  omega

@[simp] theorem sizeOfMsgs_append (l₁ l₂ : List Msg) :
    sizeOfMsgs (l₁ ++ l₂) = sizeOfMsgs l₁ + sizeOfMsgs l₂ := by
  induction l₁ with
  | nil => simp
  | cons m t ih => simp [ih]; omega

theorem insertAt_true (e s : Msg) (t : List Msg) :
    insertAt true e (s :: t) = s :: e :: t := by
  simp [insertAt]

theorem insertAt_false (e : Msg) (l : List Msg) :
    insertAt false e l = e :: l := by
  simp [insertAt]

/-- The history loop never pushes the running total above the budget. -/
theorem fitLoop_size (hs : Bool) (mc : ℤ) :
    ∀ (pend result : List Msg), (sizeOfMsgs result : ℤ) ≤ mc →
      (sizeOfMsgs (fitLoop hs mc pend result) : ℤ) ≤ mc := by
  intro pend
  induction pend with
  | nil => intro result h; simpa [fitLoop] using h
  | cons m pend ih =>
    intro result h
    simp only [fitLoop]
    split
    · exact ih _ (by assumption)
    · exact ih _ h

/-- With a system anchor, the loop output is always `anchor :: middle ++ [last]`. -/
theorem fitLoop_shape_true (mc : ℤ) :
    ∀ (pend acc : List Msg) (s lst : Msg),
      ∃ mid, fitLoop true mc pend (s :: acc ++ [lst]) = s :: mid ++ [lst] := by
  intro pend
  induction pend with
  | nil => intro acc s lst; exact ⟨acc, by simp [fitLoop]⟩
  | cons e pend ih =>
    intro acc s lst
    have hins : insertAt true e (s :: acc ++ [lst]) = s :: (e :: acc) ++ [lst] := by
      simp [insertAt]
    simp only [fitLoop, hins]
    split
    · exact ih (e :: acc) s lst
    · exact ih acc s lst

/-- Without a system anchor, the loop output is always `middle ++ [last]`. -/
theorem fitLoop_shape_false (mc : ℤ) :
    ∀ (pend acc : List Msg) (lst : Msg),
      ∃ mid, fitLoop false mc pend (acc ++ [lst]) = mid ++ [lst] := by
  intro pend
  induction pend with
  | nil => intro acc lst; exact ⟨acc, by simp [fitLoop]⟩
  | cons e pend ih =>
    intro acc lst
    have hins : insertAt false e (acc ++ [lst]) = (e :: acc) ++ [lst] := by
      simp [insertAt]
    simp only [fitLoop, hins]
    split
    · exact ih (e :: acc) lst
    · exact ih acc lst

/-- When the whole pending block fits the budget, every insertion is accepted
and the loop rebuilds `anchor :: pend.reverse ++ acc ++ [last]`. -/
theorem fitLoop_all_true (mc : ℤ) :
    ∀ (pend acc : List Msg) (s lst : Msg),
      (sizeOfMsgs (s :: (pend.reverse ++ acc) ++ [lst]) : ℤ) ≤ mc →
      fitLoop true mc pend (s :: acc ++ [lst]) = s :: (pend.reverse ++ acc) ++ [lst] := by
  intro pend
  induction pend with
  | nil => intro acc s lst h; simp [fitLoop]
  | cons e pend ih =>
    intro acc s lst h
    have hins : insertAt true e (s :: acc ++ [lst]) = s :: (e :: acc) ++ [lst] := by
      simp [insertAt]
    have hre : (e :: pend).reverse ++ acc = pend.reverse ++ (e :: acc) := by
      simp
    rw [hre] at h
    have hcand : (sizeOfMsgs (s :: (e :: acc) ++ [lst]) : ℤ) ≤ mc := by
      simp only [sizeOfMsgs_cons, sizeOfMsgs_append] at h ⊢
      push_cast at h ⊢
      omega
    simp only [fitLoop, hins]
    rw [if_pos hcand, hre]
    exact ih (e :: acc) s lst h

/-- No-anchor version of `fitLoop_all_true`. -/
theorem fitLoop_all_false (mc : ℤ) :
    ∀ (pend acc : List Msg) (lst : Msg),
      (sizeOfMsgs ((pend.reverse ++ acc) ++ [lst]) : ℤ) ≤ mc →
      fitLoop false mc pend (acc ++ [lst]) = (pend.reverse ++ acc) ++ [lst] := by
  intro pend
  induction pend with
  | nil => intro acc lst h; simp [fitLoop]
  | cons e pend ih =>
    intro acc lst h
    have hins : insertAt false e (acc ++ [lst]) = (e :: acc) ++ [lst] := by
      simp [insertAt]
    have hre : (e :: pend).reverse ++ acc = pend.reverse ++ (e :: acc) := by
      simp
    rw [hre] at h
    have hcand : (sizeOfMsgs ((e :: acc) ++ [lst]) : ℤ) ≤ mc := by
      simp only [sizeOfMsgs_cons, sizeOfMsgs_append] at h ⊢
      push_cast at h ⊢
      omega
    simp only [fitLoop, hins]
    rw [if_pos hcand, hre]
    exact ih (e :: acc) lst h

/-- Unfolding of `fitMessagesToBudget` on a non-empty list (uses that
rebuilding `{role, content}` is the identity on `Msg`). -/
theorem fit_cons_eq (m0 : Msg) (rest : List Msg) (mc : ℤ) :
    fitMessagesToBudget (m0 :: rest) mc =
      if m0.role = Role.system then
        if (sizeOfMsgs [m0, rest.getLastD m0] : ℤ) > mc then
          [m0, ⟨(rest.getLastD m0).role,
            truncateString (rest.getLastD m0).content
              (max 0 (mc - (m0.content.length : ℤ)))⟩]
        else fitLoop true mc rest.dropLast.reverse [m0, rest.getLastD m0]
      else
        if (sizeOfMsgs [rest.getLastD m0] : ℤ) > mc then
          [⟨(rest.getLastD m0).role, truncateString (rest.getLastD m0).content mc⟩]
        else fitLoop false mc (m0 :: rest).dropLast.reverse [rest.getLastD m0] := rfl

/-- Any non-empty list that already fits the budget — and is not a lone
system-role message — is a fixed point of `fitMessagesToBudget`. -/
theorem fit_fixed (m0 : Msg) (rest : List Msg) (mc : ℤ)
    (hsz : (sizeOfMsgs (m0 :: rest) : ℤ) ≤ mc)
    (h1 : rest = [] → m0.role ≠ Role.system) :
    fitMessagesToBudget (m0 :: rest) mc = m0 :: rest := by
  by_cases hs : m0.role = Role.system
  · have hrest : rest ≠ [] := fun h => (h1 h) hs
    obtain ⟨mid, lst, rfl⟩ : ∃ mid lst, rest = mid ++ [lst] := by
      rcases List.eq_nil_or_concat rest with h | ⟨L, b, h⟩
      · exact absurd h hrest
      · exact ⟨L, b, by simpa [List.concat_eq_append] using h⟩
    have hlast : (mid ++ [lst]).getLastD m0 = lst := List.getLastD_concat _ _ _
    have hdl : (mid ++ [lst]).dropLast = mid := List.dropLast_concat
    have hcond : ¬ ((sizeOfMsgs [m0, lst] : ℤ) > mc) := by
      simp only [sizeOfMsgs_cons, sizeOfMsgs_append, sizeOfMsgs_nil] at hsz ⊢
      push_cast at hsz ⊢
      omega
    rw [fit_cons_eq, if_pos hs, hlast, hdl, if_neg hcond]
    have happ := fitLoop_all_true mc mid.reverse [] m0 lst (by simpa using hsz)
    simpa using happ
  · rcases List.eq_nil_or_concat rest with hre | ⟨mid, lst, hre⟩
    · subst hre
      have hcond : ¬ ((sizeOfMsgs [([] : List Msg).getLastD m0] : ℤ) > mc) := by
        simp only [List.getLastD_nil]
        simpa using hsz
      rw [fit_cons_eq, if_neg hs, if_neg hcond]
      simp [fitLoop, List.getLastD_nil]
    · have hre' : rest = mid ++ [lst] := by simpa [List.concat_eq_append] using hre
      subst hre'
      have hlast : (mid ++ [lst]).getLastD m0 = lst := List.getLastD_concat _ _ _
      have hdl : (m0 :: (mid ++ [lst])).dropLast = m0 :: mid := by
        have h2 : m0 :: (mid ++ [lst]) = (m0 :: mid) ++ [lst] := by simp
        rw [h2, List.dropLast_concat]
      have hcond : ¬ ((sizeOfMsgs [lst] : ℤ) > mc) := by
        simp only [sizeOfMsgs_cons, sizeOfMsgs_append, sizeOfMsgs_nil] at hsz ⊢
        push_cast at hsz ⊢
        omega
      rw [fit_cons_eq, if_neg hs, hlast, if_neg (hlast ▸ hcond), hdl]
      have happ := fitLoop_all_false mc (m0 :: mid).reverse [] lst (by simpa using hsz)
      simpa using happ

/-- Refitting `[anchor, {role, ""}]` when the anchor alone exceeds the
budget reproduces it (the degenerate anchor case). -/
theorem fit_pair_anchor_over (m0 : Msg) (r : Role) (mc : ℤ)
    (hs : m0.role = Role.system) (hover : mc < (m0.content.length : ℤ)) :
    fitMessagesToBudget [m0, ⟨r, []⟩] mc = [m0, ⟨r, []⟩] := by
  have hlast : ([⟨r, []⟩] : List Msg).getLastD m0 = ⟨r, []⟩ := rfl
  have hcond : (sizeOfMsgs [m0, (⟨r, []⟩ : Msg)] : ℤ) > mc := by
    simp
    omega
  have hmax : max 0 (mc - (m0.content.length : ℤ)) = 0 := max_eq_left (by omega)
  rw [fit_cons_eq, if_pos hs, hlast, if_pos hcond, hmax]
  simp [truncateString_nonpos _ _ le_rfl]

/-- Refitting a lone non-system message with empty content under a
negative budget reproduces it. -/
theorem fit_singleton_empty_nonsys (r : Role) (mc : ℤ)
    (hr : r ≠ Role.system) (hneg : mc < 0) :
    fitMessagesToBudget [⟨r, []⟩] mc = [⟨r, []⟩] := by
  have hcond : (sizeOfMsgs [(⟨r, []⟩ : Msg)] : ℤ) > mc := by
    simp
    omega
  rw [fit_cons_eq]
  rw [if_neg hr]
  rw [List.getLastD_nil, if_pos hcond]
  simp [truncateString_nonpos _ _ (le_of_lt hneg)]

/-- A member's content is no longer than the block total. -/
theorem sizeOfMsgs_mem_le {m : Msg} {l : List Msg} (h : m ∈ l) :
    m.content.length ≤ sizeOfMsgs l := by
  induction l with
  | nil => cases h
  | cons a t ih =>
    rcases List.mem_cons.mp h with rfl | h'
    · simp
    · have := ih h'
      simp
      omega

/-- In a block of total size zero every member has empty content. -/
theorem sizeOfMsgs_zero_content {l : List Msg} (hl : sizeOfMsgs l = 0)
    {m : Msg} (hm : m ∈ l) : m.content = [] := by
  have h := sizeOfMsgs_mem_le hm
  exact List.length_eq_zero.mp (by omega)

/-- Claim C1 (amended): for every non-empty input the fitted sequence has
total content length at most `max maxChars 0`, except in the degenerate
case where the leading system anchor's own full content length already
exceeds `maxChars`; in that case the output is exactly the anchor at full
length followed by the trailing message with content reduced to empty. -/
theorem fit_total_budget (m0 : Msg) (rest : List Msg) (mc : ℤ) :
    (¬ (m0.role = Role.system ∧ mc < (m0.content.length : ℤ)) →
      (sizeOfMsgs (fitMessagesToBudget (m0 :: rest) mc) : ℤ) ≤ max mc 0)
  ∧ (m0.role = Role.system → mc < (m0.content.length : ℤ) →
      fitMessagesToBudget (m0 :: rest) mc =
        [m0, ⟨(rest.getLastD m0).role, []⟩]) := by
  have hout := fit_cons_eq m0 rest mc
  constructor
  · intro hnd
    by_cases hs : m0.role = Role.system
    · have hlen : (m0.content.length : ℤ) ≤ mc := by
        by_contra hcon
        exact hnd ⟨hs, by omega⟩
      rw [if_pos hs] at hout
      by_cases hc : (sizeOfMsgs [m0, rest.getLastD m0] : ℤ) > mc
      · rw [if_pos hc] at hout
        have e1 : max 0 (mc - (m0.content.length : ℤ)) = mc - (m0.content.length : ℤ) :=
          max_eq_right (by omega)
        rw [e1] at hout
        have hlenb := truncateString_length_le (rest.getLastD m0).content
          (mc - (m0.content.length : ℤ))
        rw [max_eq_left (by omega)] at hlenb
        rw [hout]
        simp only [sizeOfMsgs_cons, sizeOfMsgs_nil]
        have hm := le_max_left mc (0 : ℤ)
        push_cast
        omega
      · rw [if_neg hc] at hout
        rw [hout]
        have hsz := fitLoop_size true mc rest.dropLast.reverse [m0, rest.getLastD m0]
          (not_lt.mp hc)
        have hm := le_max_left mc (0 : ℤ)
        omega
    · rw [if_neg hs] at hout
      by_cases hc : (sizeOfMsgs [rest.getLastD m0] : ℤ) > mc
      · rw [if_pos hc] at hout
        rw [hout]
        simp only [sizeOfMsgs_cons, sizeOfMsgs_nil]
        have hlenb := truncateString_length_le (rest.getLastD m0).content mc
        push_cast
        omega
      · rw [if_neg hc] at hout
        rw [hout]
        have hsz := fitLoop_size false mc (m0 :: rest).dropLast.reverse [rest.getLastD m0]
          (not_lt.mp hc)
        have hm := le_max_left mc (0 : ℤ)
        omega
  · intro hs hover
    rw [if_pos hs] at hout
    have hc : (sizeOfMsgs [m0, rest.getLastD m0] : ℤ) > mc := by
      simp only [sizeOfMsgs_cons, sizeOfMsgs_nil]
      push_cast
      omega
    rw [if_pos hc, max_eq_left (by omega), truncateString_nonpos _ _ le_rfl] at hout
    exact hout

/-- Witness for `fit_total_budget` at a concrete in-budget input. -/
theorem fit_total_budget_witness :
    (sizeOfMsgs (fitMessagesToBudget
        [⟨Role.system, ['s']⟩, ⟨Role.user, ['u']⟩] 10) : ℤ) ≤ max 10 0 :=
  (fit_total_budget ⟨Role.system, ['s']⟩ [⟨Role.user, ['u']⟩] 10).1 (by decide)

/-- Counterexample to claim C1 as stated: with no system anchor and
`maxChars = -1` the fitted total is `0 > maxChars`, yet the claim's only
admitted exception (an oversized leading system anchor) does not apply. -/
theorem fit_total_budget_counterexample :
    fitMessagesToBudget [⟨Role.user, ['a']⟩] (-1) = [⟨Role.user, []⟩] ∧
    ¬ ((sizeOfMsgs (fitMessagesToBudget [⟨Role.user, ['a']⟩] (-1)) : ℤ) ≤ -1) ∧
    (⟨Role.user, ['a']⟩ : Msg).role ≠ Role.system := by
  decide

/-- Claim C2: for every non-empty input and every `maxChars`, the output
starts with the first message whenever its role is `system` (kept at full
length, hence in particular "possibly truncated"), and ends with the last
input message whose content is some truncation of the original trailing
content (`k = length` gives the untruncated case); neither is dropped. -/
theorem fit_keeps_anchor_and_trailing (m0 : Msg) (rest : List Msg) (mc : ℤ) :
    (m0.role = Role.system →
      (fitMessagesToBudget (m0 :: rest) mc).head? = some m0)
  ∧ (∃ k : ℤ, (fitMessagesToBudget (m0 :: rest) mc).getLast? =
      some ⟨(rest.getLastD m0).role, truncateString (rest.getLastD m0).content k⟩) := by
  have hout := fit_cons_eq m0 rest mc
  constructor
  · intro hs
    rw [if_pos hs] at hout
    by_cases hc : (sizeOfMsgs [m0, rest.getLastD m0] : ℤ) > mc
    · rw [if_pos hc] at hout
      rw [hout]
      rfl
    · rw [if_neg hc] at hout
      obtain ⟨mid, hmid⟩ := fitLoop_shape_true mc rest.dropLast.reverse [] m0 (rest.getLastD m0)
      have hmid' : fitLoop true mc rest.dropLast.reverse [m0, rest.getLastD m0] =
          m0 :: mid ++ [rest.getLastD m0] := hmid
      rw [hmid'] at hout
      rw [hout]
      rfl
  · by_cases hs : m0.role = Role.system
    · rw [if_pos hs] at hout
      by_cases hc : (sizeOfMsgs [m0, rest.getLastD m0] : ℤ) > mc
      · rw [if_pos hc] at hout
        exact ⟨max 0 (mc - (m0.content.length : ℤ)), by rw [hout]; rfl⟩
      · rw [if_neg hc] at hout
        obtain ⟨mid, hmid⟩ := fitLoop_shape_true mc rest.dropLast.reverse [] m0 (rest.getLastD m0)
        have hmid' : fitLoop true mc rest.dropLast.reverse [m0, rest.getLastD m0] =
            m0 :: mid ++ [rest.getLastD m0] := hmid
        rw [hmid'] at hout
        refine ⟨((rest.getLastD m0).content.length : ℤ), ?_⟩
        rw [hout, truncateString_self]
        exact List.getLast?_concat _
    · rw [if_neg hs] at hout
      by_cases hc : (sizeOfMsgs [rest.getLastD m0] : ℤ) > mc
      · rw [if_pos hc] at hout
        exact ⟨mc, by rw [hout]; rfl⟩
      · rw [if_neg hc] at hout
        obtain ⟨mid, hmid⟩ := fitLoop_shape_false mc (m0 :: rest).dropLast.reverse []
          (rest.getLastD m0)
        have hmid' : fitLoop false mc (m0 :: rest).dropLast.reverse [rest.getLastD m0] =
            mid ++ [rest.getLastD m0] := hmid
        rw [hmid'] at hout
        refine ⟨((rest.getLastD m0).content.length : ℤ), ?_⟩
        rw [hout, truncateString_self]
        exact List.getLast?_concat _

/-- Witness for `fit_keeps_anchor_and_trailing` at a concrete input. -/
theorem fit_keeps_anchor_and_trailing_witness :
    (fitMessagesToBudget [⟨Role.system, ['s']⟩, ⟨Role.user, ['u']⟩] 99).head? =
      some ⟨Role.system, ['s']⟩ :=
  (fit_keeps_anchor_and_trailing ⟨Role.system, ['s']⟩ [⟨Role.user, ['u']⟩] 99).1 rfl

/-- Claim C3 (refuting evaluation): on the singleton system message
`{role: "system", content: "ab"}` with `maxChars = 100`, the code returns
the message twice and counts its content twice (total 4, not 2) — the
single message is not "counted only once / returned exactly once". -/
theorem fit_singleton_system_duplicated :
    fitMessagesToBudget [⟨Role.system, ['a', 'b']⟩] 100 =
      [⟨Role.system, ['a', 'b']⟩, ⟨Role.system, ['a', 'b']⟩] ∧
    sizeOfMsgs (fitMessagesToBudget [⟨Role.system, ['a', 'b']⟩] 100) = 4 := by
  decide

/-- Claim C4 (amended): if `maxChars ≤ 0` every returned message has empty
content, except that a leading system anchor is returned with its content
unchanged (so it is empty only if it was already empty). -/
theorem fit_nonpos_budget_empties (m0 : Msg) (rest : List Msg) (mc : ℤ) (hmc : mc ≤ 0) :
    ∀ m ∈ fitMessagesToBudget (m0 :: rest) mc,
      m.content = [] ∨ (m0.role = Role.system ∧ m = m0) := by
  have hout := fit_cons_eq m0 rest mc
  by_cases hs : m0.role = Role.system
  · rw [if_pos hs] at hout
    by_cases hc : (sizeOfMsgs [m0, rest.getLastD m0] : ℤ) > mc
    · rw [if_pos hc] at hout
      rw [hout]
      intro m hm
      rcases List.mem_cons.mp hm with rfl | hm2
      · exact Or.inr ⟨hs, rfl⟩
      · rcases List.mem_cons.mp hm2 with rfl | hm3
        · left
          show truncateString _ _ = []
          rw [max_eq_left (by omega)]
          exact truncateString_nonpos _ _ le_rfl
        · cases hm3
    · rw [if_neg hc] at hout
      rw [hout]
      intro m hm
      left
      have hsz := fitLoop_size true mc rest.dropLast.reverse [m0, rest.getLastD m0]
        (not_lt.mp hc)
      have hz : sizeOfMsgs (fitLoop true mc rest.dropLast.reverse [m0, rest.getLastD m0]) = 0 := by
        omega
      exact sizeOfMsgs_zero_content hz hm
  · rw [if_neg hs] at hout
    by_cases hc : (sizeOfMsgs [rest.getLastD m0] : ℤ) > mc
    · rw [if_pos hc] at hout
      rw [hout]
      intro m hm
      rcases List.mem_cons.mp hm with rfl | hm2
      · left
        show truncateString _ _ = []
        exact truncateString_nonpos _ _ hmc
      · cases hm2
    · rw [if_neg hc] at hout
      rw [hout]
      intro m hm
      left
      have hsz := fitLoop_size false mc (m0 :: rest).dropLast.reverse [rest.getLastD m0]
        (not_lt.mp hc)
      have hz : sizeOfMsgs
          (fitLoop false mc (m0 :: rest).dropLast.reverse [rest.getLastD m0]) = 0 := by
        omega
      exact sizeOfMsgs_zero_content hz hm

/-- Witness for `fit_nonpos_budget_empties` at a concrete input. -/
theorem fit_nonpos_budget_empties_witness :
    (⟨Role.user, []⟩ : Msg).content = [] ∨
      ((⟨Role.user, ['a']⟩ : Msg).role = Role.system ∧
        (⟨Role.user, []⟩ : Msg) = ⟨Role.user, ['a']⟩) :=
  fit_nonpos_budget_empties ⟨Role.user, ['a']⟩ [] (-1) (by decide)
    ⟨Role.user, []⟩ (by decide)

/-- Counterexample to claim C4 as stated: with `maxChars = 0` the leading
system anchor keeps its non-empty content `"a"` — not every message
collapses to empty content. -/
theorem fit_nonpos_budget_counterexample :
    fitMessagesToBudget [⟨Role.system, ['a']⟩, ⟨Role.user, ['b']⟩] 0 =
      [⟨Role.system, ['a']⟩, ⟨Role.user, []⟩] ∧ (['a'] : Str) ≠ [] := by
  decide

/-- Claim C5: `truncateString s n` is empty for `n ≤ 0`, is `s` unchanged
when `length s ≤ n`, otherwise keeps the first `n - 1` characters and
appends one ellipsis character; for `n ≥ 1` the result length is at
most `n`. -/
theorem truncateString_spec (s : Str) (n : ℤ) :
    (n ≤ 0 → truncateString s n = [])
  ∧ ((s.length : ℤ) ≤ n → truncateString s n = s)
  ∧ (0 < n → n < (s.length : ℤ) →
      truncateString s n = s.take (n - 1).toNat ++ ['…'])
  ∧ (1 ≤ n → ((truncateString s n).length : ℤ) ≤ n) := by
  refine ⟨truncateString_nonpos s n, truncateString_of_le s n, ?_, ?_⟩
  · intro h1 h2
    unfold truncateString
    rw [if_neg (by omega), if_neg (by omega)]
  · intro h1
    have h := truncateString_length_le s n
    rwa [max_eq_left (by omega)] at h

/-- Witness for `truncateString_spec` at concrete inputs. -/
theorem truncateString_spec_witness :
    truncateString ['a', 'b', 'c'] (-1) = [] ∧
    truncateString ['a', 'b', 'c'] 2 = ['a', '…'] := by
  have h1 := truncateString_spec ['a', 'b', 'c'] (-1)
  have h2 := truncateString_spec ['a', 'b', 'c'] 2
  refine ⟨h1.1 (by norm_num), ?_⟩
  rw [h2.2.2.1 (by norm_num) (by norm_num)]
  decide

/-- Claim C6 (amended): `fitMessagesToBudget` is idempotent on every
non-empty input whose first message has role `system` or whose last
message does not have role `system` (the shape every call site produces;
outside it, a non-system head with a system-role trailing message can
make the refit duplicate the lone surviving system message). -/
theorem fit_idempotent (m0 : Msg) (rest : List Msg) (mc : ℤ)
    (h : m0.role = Role.system ∨ (rest.getLastD m0).role ≠ Role.system) :
    fitMessagesToBudget (fitMessagesToBudget (m0 :: rest) mc) mc =
      fitMessagesToBudget (m0 :: rest) mc := by
  have hout := fit_cons_eq m0 rest mc
  by_cases hs : m0.role = Role.system
  · rw [if_pos hs] at hout
    by_cases hc : (sizeOfMsgs [m0, rest.getLastD m0] : ℤ) > mc
    · rw [if_pos hc] at hout
      by_cases hlen : (m0.content.length : ℤ) ≤ mc
      · have e1 : max 0 (mc - (m0.content.length : ℤ)) = mc - (m0.content.length : ℤ) :=
          max_eq_right (by omega)
        rw [e1] at hout
        rw [hout]
        apply fit_fixed
        · simp only [sizeOfMsgs_cons, sizeOfMsgs_nil]
          have hlenb := truncateString_length_le (rest.getLastD m0).content
            (mc - (m0.content.length : ℤ))
          rw [max_eq_left (by omega)] at hlenb
          push_cast
          omega
        · simp
      · rw [max_eq_left (by omega), truncateString_nonpos _ _ le_rfl] at hout
        rw [hout]
        exact fit_pair_anchor_over m0 (rest.getLastD m0).role mc hs (by omega)
    · rw [if_neg hc] at hout
      obtain ⟨mid, hmid⟩ := fitLoop_shape_true mc rest.dropLast.reverse [] m0 (rest.getLastD m0)
      have hmid' : fitLoop true mc rest.dropLast.reverse [m0, rest.getLastD m0] =
          m0 :: mid ++ [rest.getLastD m0] := hmid
      rw [hmid'] at hout
      have hsize : (sizeOfMsgs (m0 :: mid ++ [rest.getLastD m0]) : ℤ) ≤ mc := by
        have hsz := fitLoop_size true mc rest.dropLast.reverse [m0, rest.getLastD m0]
          (not_lt.mp hc)
        rwa [hmid'] at hsz
      rw [hout]
      exact fit_fixed m0 (mid ++ [rest.getLastD m0]) mc hsize (by simp)
  · have hlast : (rest.getLastD m0).role ≠ Role.system := h.resolve_left hs
    rw [if_neg hs] at hout
    by_cases hc : (sizeOfMsgs [rest.getLastD m0] : ℤ) > mc
    · rw [if_pos hc] at hout
      by_cases hmc : (0 : ℤ) ≤ mc
      · rw [hout]
        apply fit_fixed
        · simp only [sizeOfMsgs_cons, sizeOfMsgs_nil]
          have hlenb := truncateString_length_le (rest.getLastD m0).content mc
          rw [max_eq_left hmc] at hlenb
          push_cast
          omega
        · intro _
          exact hlast
      · push_neg at hmc
        rw [truncateString_nonpos _ _ (by omega)] at hout
        rw [hout]
        exact fit_singleton_empty_nonsys (rest.getLastD m0).role mc hlast (by omega)
    · rw [if_neg hc] at hout
      obtain ⟨mid, hmid⟩ := fitLoop_shape_false mc (m0 :: rest).dropLast.reverse []
        (rest.getLastD m0)
      have hmid' : fitLoop false mc (m0 :: rest).dropLast.reverse [rest.getLastD m0] =
          mid ++ [rest.getLastD m0] := hmid
      rw [hmid'] at hout
      have hsize : (sizeOfMsgs (mid ++ [rest.getLastD m0]) : ℤ) ≤ mc := by
        have hsz := fitLoop_size false mc (m0 :: rest).dropLast.reverse [rest.getLastD m0]
          (not_lt.mp hc)
        rwa [hmid'] at hsz
      rw [hout]
      cases mid with
      | nil =>
        exact fit_fixed (rest.getLastD m0) [] mc (by simpa using hsize) (fun _ => hlast)
      | cons a mid2 =>
        exact fit_fixed a (mid2 ++ [rest.getLastD m0]) mc (by simpa using hsize) (by simp)

/-- Witness for `fit_idempotent` at a concrete input. -/
theorem fit_idempotent_witness :
    fitMessagesToBudget
        (fitMessagesToBudget [⟨Role.system, ['a']⟩, ⟨Role.user, ['b', 'c']⟩] 2) 2 =
      fitMessagesToBudget [⟨Role.system, ['a']⟩, ⟨Role.user, ['b', 'c']⟩] 2 :=
  fit_idempotent ⟨Role.system, ['a']⟩ [⟨Role.user, ['b', 'c']⟩] 2 (Or.inl rfl)

/-- Counterexample to claim C6 as stated: on
`[{user,"a"}, {system,"bbbb"}]` with `maxChars = 4` the first fit keeps
only the trailing system message; refitting duplicates it as an anchor and
truncates, so `fit ∘ fit ≠ fit` on this input. -/
theorem fit_idempotent_counterexample :
    fitMessagesToBudget
        (fitMessagesToBudget [⟨Role.user, ['a']⟩, ⟨Role.system, ['b', 'b', 'b', 'b']⟩] 4) 4 ≠
      fitMessagesToBudget [⟨Role.user, ['a']⟩, ⟨Role.system, ['b', 'b', 'b', 'b']⟩] 4 := by
  decide

/-- Claim C10: the sanitized age is always an integer in `[18, 200]`:
a finite numeric age is floored and clamped to that range, any other
age defaults to 18. -/
theorem sanitizeCharacterAge_in_range (a : Option ℚ) :
    ∃ z : ℤ, sanitizeCharacterAge a = (z : ℚ) ∧ 18 ≤ z ∧ z ≤ 200 := by
  cases a with
  | none => exact ⟨18, by norm_num [sanitizeCharacterAge], by norm_num, by norm_num⟩
  | some q =>
    refine ⟨max 18 (min 200 ⌊q⌋), ?_, le_max_left _ _, max_le (by norm_num) (min_le_left _ _)⟩
    show clamp (⌊q⌋ : ℚ) 18 200 = _
    unfold clamp
    push_cast
    rfl

end Chat

namespace Video

/-- A terminal-error status label is never a processing label. -/
theorem terminal_not_processing_str (v : Str)
    (h : (v == ("FAILED".toList) || v == ("ERROR".toList) || v == ("CANCELED".toList) ||
      v == ("CANCELLED".toList)) = true) :
    (v == ("PROCESSING".toList) || v == ("QUEUED".toList) || v == ("PENDING".toList) ||
      v == ("STARTING".toList) || v == ("RUNNING".toList) ||
      v == ("IN_PROGRESS".toList)) = false := by
  simp only [Bool.or_eq_true, beq_iff_eq] at h
  rcases h with ((h | h) | h) | h <;> subst h <;> decide

/-- `isTerminalErrorStatus` and `isProcessingStatus` are disjoint. -/
theorem terminal_not_processing (s : Option Str)
    (h : isTerminalErrorStatus s = true) : isProcessingStatus s = false :=
  terminal_not_processing_str (toUpperStr (jsStr s)) h

/-- The exact set of status strings the code treats as still-processing:
uppercase normalization of `PROCESSING`, `QUEUED`, `PENDING`, `STARTING`,
`RUNNING`, `IN_PROGRESS` (underscore, not hyphen). -/
theorem isProcessingStatus_iff (s : Str) :
    isProcessingStatus (some s) = true ↔
      toUpperStr s ∈ [("PROCESSING".toList), ("QUEUED".toList), ("PENDING".toList),
        ("STARTING".toList), ("RUNNING".toList), ("IN_PROGRESS".toList)] := by
  simp only [isProcessingStatus, jsStr, Bool.or_eq_true, beq_iff_eq, List.mem_cons,
    List.not_mem_nil, or_false]
  tauto

/-- Whenever the loop check passes, at least one more retrieval attempt is
issued before any result is produced. -/
theorem retrieveLoop_attempts_ge (cfg : PollCfg) (tr : Trace) :
    ∀ (fuel elapsed k : ℕ) (r : PollResult),
      retrieveLoop cfg tr fuel elapsed k = some r →
      elapsed < cfg.maxWaitMs → k + 1 ≤ r.attempts := by
  intro fuel
  induction fuel with
  | zero =>
    intro elapsed k r h _
    simp [retrieveLoop] at h
  | succ f ih =>
    intro elapsed k r h hlt
    cases hf : tr.fetch k with
    | threw d =>
      simp [retrieveLoop, hlt, hf] at h
      subst h
      exact le_rfl
    | httpError st t =>
      simp [retrieveLoop, hlt, hf] at h
      subst h
      exact le_rfl
    | ok ct j =>
      by_cases hct : includesStr (toLowerStr ct) jsonContentType = true
      · by_cases hp : isProcessingStatus (j.bind (fun x => x.status)) = true
        · simp only [retrieveLoop, hlt, if_true, hf, hct, hp] at h
          by_cases hlt2 : elapsed + tr.fetchDur k + cfg.pollEveryMs < cfg.maxWaitMs
          · have h3 := ih _ _ _ h hlt2
            omega
          · cases f with
            | zero => simp [retrieveLoop] at h
            | succ f2 =>
              simp [retrieveLoop, hlt2] at h
              subst h
              exact le_rfl
        · have hp' : isProcessingStatus (j.bind (fun x => x.status)) = false := by
            simpa using hp
          cases hmay : jsOrOpt (j.bind (fun x => x.video_url)) (j.bind (fun x => x.media_url)) with
          | none =>
            by_cases ht : isTerminalErrorStatus (j.bind (fun x => x.status)) = true
            · simp [retrieveLoop, hlt, hf, hct, hp', hmay, ht] at h
              subst h
              exact le_rfl
            · have ht' : isTerminalErrorStatus (j.bind (fun x => x.status)) = false := by
                simpa using ht
              simp [retrieveLoop, hlt, hf, hct, hp', hmay, ht'] at h
              subst h
              exact le_rfl
          | some u =>
            by_cases hsw : startsWithStr u httpMarker = true
            · simp [retrieveLoop, hlt, hf, hct, hp', hmay, hsw] at h
              subst h
              exact le_rfl
            · have hsw' : startsWithStr u httpMarker = false := by simpa using hsw
              by_cases ht : isTerminalErrorStatus (j.bind (fun x => x.status)) = true
              · simp [retrieveLoop, hlt, hf, hct, hp', hmay, hsw', ht] at h
                subst h
                exact le_rfl
              · have ht' : isTerminalErrorStatus (j.bind (fun x => x.status)) = false := by
                  simpa using ht
                simp [retrieveLoop, hlt, hf, hct, hp', hmay, hsw', ht'] at h
                subst h
                exact le_rfl
      · have hct' : includesStr (toLowerStr ct) jsonContentType = false := by
          simpa using hct
        simp [retrieveLoop, hlt, hf, hct'] at h
        subst h
        exact le_rfl

/-- Claim C7 (amended): when a retrieval response has a provider-reported
terminal-failure status (`failed`/`error`/`canceled`/`cancelled`,
case-insensitively), the loop ends at that very attempt with no sleep and
no further retrieval calls; the response is returned as a terminal-failure
outcome carrying the body as-is — unless the same body also holds a usable
reference (`video_url || media_url` starting with `"http"`), in which case
the loop still ends immediately but returns that reference as a
completed-with-URL success (the URL check precedes the failure check). -/
theorem terminal_failure_ends_loop (cfg : PollCfg) (tr : Trace) (fuel elapsed k : ℕ)
    (ct : Str) (j : Option RetrieveJson)
    (hlt : elapsed < cfg.maxWaitMs)
    (hf : tr.fetch k = .ok ct j)
    (hct : includesStr (toLowerStr ct) jsonContentType = true)
    (hterm : isTerminalErrorStatus (j.bind (fun x => x.status)) = true) :
    ((∀ u, jsOrOpt (j.bind (fun x => x.video_url)) (j.bind (fun x => x.media_url)) = some u →
        startsWithStr u httpMarker = false) →
      retrieveLoop cfg tr (fuel + 1) elapsed k =
        some ⟨.terminalFailure cfg.queueId j, k + 1, elapsed + tr.fetchDur k⟩)
  ∧ (∀ u, jsOrOpt (j.bind (fun x => x.video_url)) (j.bind (fun x => x.media_url)) = some u →
      startsWithStr u httpMarker = true →
      retrieveLoop cfg tr (fuel + 1) elapsed k =
        some ⟨.videoUrl u cfg.queueId (statusOrDone (j.bind (fun x => x.status))), k + 1,
          elapsed + tr.fetchDur k⟩) := by
  have hproc := terminal_not_processing _ hterm
  constructor
  · intro hurl
    cases hmay : jsOrOpt (j.bind (fun x => x.video_url)) (j.bind (fun x => x.media_url)) with
    | none => simp [retrieveLoop, hlt, hf, hct, hproc, hmay, hterm]
    | some u =>
      have hsw := hurl u hmay
      simp [retrieveLoop, hlt, hf, hct, hproc, hmay, hsw, hterm]
  · intro u hmay hsw
    simp [retrieveLoop, hlt, hf, hct, hproc, hmay, hsw]

/-- Witness for `terminal_failure_ends_loop`: a first-attempt
`{status: "failed"}` body ends the run at once as a terminal failure. -/
theorem terminal_failure_ends_loop_witness :
    retrieveLoop sampleCfg failedTrace 1 0 0 =
      some ⟨.terminalFailure sampleCfg.queueId (some failedJson), 1, 0⟩ := by
  have h := (terminal_failure_ends_loop sampleCfg failedTrace 0 0 0
    jsonContentType (some failedJson) (by decide) rfl (by decide) (by decide)).1
    (fun u hu => by simp [jsOrOpt, failedJson] at hu)
  exact h

/-- Counterexample to claim C7 as stated: a response with terminal-failure
status `"failed"` that also carries `video_url: "http://x"` is returned as
a completed-with-URL success, not as a failure. -/
theorem terminal_failure_counterexample :
    retrieveLoop sampleCfg failedUrlTrace 1 0 0 =
      some ⟨.videoUrl ("http://x".toList) sampleCfg.queueId ("failed".toList), 1, 0⟩ ∧
    isTerminalErrorStatus (some ("failed".toList)) = true := by
  decide

/-- Claim C8: a transport-level failure of a retrieval attempt (the fetch
throws, or the response is non-2xx) makes the loop return that attempt's
error outcome immediately: the attempt counter stops at `k + 1` (no
further retrieval calls) and the finish time adds only the fetch duration
(no `pollEveryMs` sleep). -/
theorem transport_error_immediate (cfg : PollCfg) (tr : Trace) (fuel elapsed k : ℕ)
    (hlt : elapsed < cfg.maxWaitMs) :
    (∀ d, tr.fetch k = .threw d →
      retrieveLoop cfg tr (fuel + 1) elapsed k =
        some ⟨.fetchThrew d cfg.queueId, k + 1, elapsed + tr.fetchDur k⟩)
  ∧ (∀ st t, tr.fetch k = .httpError st t →
      retrieveLoop cfg tr (fuel + 1) elapsed k =
        some ⟨.retrieveFailed st t cfg.queueId, k + 1, elapsed + tr.fetchDur k⟩) := by
  constructor
  · intro d hd
    simp [retrieveLoop, hlt, hd]
  · intro st t h
    simp [retrieveLoop, hlt, h]

/-- Witness for `transport_error_immediate`: a throwing first fetch. -/
theorem transport_error_immediate_witness :
    retrieveLoop sampleCfg throwTrace 1 0 0 =
      some ⟨.fetchThrew ('x' :: []) sampleCfg.queueId, 1, 0⟩ :=
  (transport_error_immediate sampleCfg throwTrace 0 0 0 (by decide)).1 ('x' :: []) rfl

/-- Claim C9 (amended): a response classified as processing (status one of
`queued`, `pending`, `starting`, `running`, `in_progress`, `processing`,
case-insensitively — with underscore, not the spec's hyphenated
`in-progress`) makes the loop sleep `pollEveryMs` and re-enter with the
next attempt index, as long as the elapsed clock is below `maxWaitMs`;
within budget a further retrieval call is then actually issued; once the
check sees `elapsed ≥ maxWaitMs` the loop exits with the still-processing
(202) outcome carrying the polled queue id. -/
theorem processing_poll_deadline (cfg : PollCfg) (tr : Trace) (fuel elapsed k : ℕ) :
    (∀ (ct : Str) (j : Option RetrieveJson),
      elapsed < cfg.maxWaitMs → tr.fetch k = .ok ct j →
      includesStr (toLowerStr ct) jsonContentType = true →
      isProcessingStatus (j.bind (fun x => x.status)) = true →
      retrieveLoop cfg tr (fuel + 1) elapsed k =
        retrieveLoop cfg tr fuel (elapsed + tr.fetchDur k + cfg.pollEveryMs) (k + 1))
  ∧ (cfg.maxWaitMs ≤ elapsed →
      retrieveLoop cfg tr (fuel + 1) elapsed k =
        some ⟨.stillProcessing cfg.queueId, k, elapsed⟩)
  ∧ (∀ r : PollResult, elapsed < cfg.maxWaitMs →
      retrieveLoop cfg tr (fuel + 1) elapsed k = some r → k + 1 ≤ r.attempts)
  ∧ (∀ s : Str, isProcessingStatus (some s) = true ↔
      toUpperStr s ∈ [("PROCESSING".toList), ("QUEUED".toList), ("PENDING".toList),
        ("STARTING".toList), ("RUNNING".toList), ("IN_PROGRESS".toList)]) := by
  refine ⟨?_, ?_, ?_, isProcessingStatus_iff⟩
  · intro ct j hlt hf hct hp
    simp [retrieveLoop, hlt, hf, hct, hp]
  · intro hge
    have hnlt : ¬ elapsed < cfg.maxWaitMs := not_lt.mpr hge
    simp [retrieveLoop, hnlt]
  · intro r hlt h
    exact retrieveLoop_attempts_ge cfg tr (fuel + 1) elapsed k r h hlt

/-- Witness for `processing_poll_deadline`: a `{status: "processing"}`
body makes the first iteration sleep `pollEveryMs` and re-enter at
attempt 1. -/
theorem processing_poll_deadline_witness :
    retrieveLoop sampleCfg processingTrace 2 0 0 =
      retrieveLoop sampleCfg processingTrace 1
        (0 + processingTrace.fetchDur 0 + sampleCfg.pollEveryMs) 1 :=
  (processing_poll_deadline sampleCfg processingTrace 1 0 0).1
    jsonContentType (some processingJson) (by decide) rfl (by decide) (by decide)

/-- Counterexample to claim C9 as stated: the status `"in-progress"`
(hyphen, as the claim spells it) is not classified as processing — the
loop returns an unexpected-JSON error after one attempt instead of
sleeping and retrying. -/
theorem processing_poll_counterexample :
    retrieveLoop sampleCfg hyphenTrace 2 0 0 =
      some ⟨.unexpectedJson sampleCfg.queueId (some hyphenJson), 1, 0⟩ ∧
    isProcessingStatus (some ("in-progress".toList)) = false := by
  decide

end Video
